import Mathlib

/-!
Shallow embedding of the log-store core of the time-tracker application
(src/App.js).  The file contains three near-duplicate variants of the app;
the embedded functions are taken from the variants the claims cite:
`loadLogsFromStorage` / `saveLogsToStorage` (App.js:164-181),
`recordActivity` (App.js:231-240), `addComment` (App.js:243-256),
`exportLogsFunction` (App.js:183-211 and App.js:628-692),
`openEditModal` / `saveEditedLog` (App.js:828-856), and the YAML
configuration handling in `SettingsScreen.saveSettings` (App.js:361-373)
and `App.loadConfig` (App.js:449-459).

JavaScript strings are modelled as lists of characters (`Str`), instants
as natural numbers, and the persisted AsyncStorage value for the logs key
as an `Option` (absent / present, already decoded from JSON where the
claim does not depend on the JSON text itself).
-/

namespace TimeTracker

/-- JavaScript strings, modelled as their character sequences. -/
abbrev Str := List Char

/-- Characters removed by JavaScript `String.prototype.trim` (ASCII subset
relevant to this application). -/
def isJsWhitespace (c : Char) : Bool :=
  c = ' ' || c = '\t' || c = '\n' || c = '\r'

/-- JavaScript `s.trim()`: strips leading and trailing whitespace. -/
def jsTrim (s : Str) : Str :=
  ((s.dropWhile isJsWhitespace).reverse.dropWhile isJsWhitespace).reverse

/-- JavaScript `s.split(",")`: splits on every comma; `"".split(",")` is
`[""]`, and separators at the ends produce empty pieces. -/
def jsSplitComma : Str → List Str
  | [] => [[]]
  | c :: rest =>
    if c = ',' then [] :: jsSplitComma rest
    else
      match jsSplitComma rest with
      | [] => [[c]]
      | p :: ps => (c :: p) :: ps

/-- One activity-log entry (App.js:232-236): `{ activity, timestamp,
comments }`.  The creation instant is abstracted to a natural number. -/
structure LogRecord where
  activity : Str
  timestamp : Nat
  comments : List Str
deriving DecidableEq, Repr

/-- The state a log-store operation acts on: the React `logs` state
(in-memory collection) and the AsyncStorage value under `LOGS_KEY`
(`none` = key absent). -/
structure StoreState where
  memory : List LogRecord
  persisted : Option (List LogRecord)
deriving DecidableEq, Repr

/-- `loadLogsFromStorage` (App.js:164-172): reads the stored text; `null`
(absent) yields `[]`; `JSON.parse` failure is caught and `[]` is
returned.  `JSON.parse` is external library code, modelled as an
all-or-nothing parse function passed as a parameter. -/
def loadLogsFromStorage (parse : Str → Option (List LogRecord)) :
    Option Str → List LogRecord
  | none => []
  | some s =>
    match parse s with
    | some logs => logs
    | none => []

/-- `saveLogsToStorage` (App.js:174-181): `AsyncStorage.setItem` inside a
`try` whose `catch` only logs to the console.  `writeOk` is the fate of
the `setItem` call; on failure the persisted value is unchanged and no
error escapes to the caller. -/
def saveLogsToStorage (writeOk : Bool) (persisted : Option (List LogRecord))
    (logs : List LogRecord) : Option (List LogRecord) :=
  if writeOk then some logs else persisted

/-- `recordActivity` (App.js:231-240): builds `{ activity, timestamp: now,
comments: [] }`, appends it, saves, then sets the in-memory state to the
appended list unconditionally (`saveLogsToStorage` never throws). -/
def recordActivity (writeOk : Bool) (st : StoreState) (activity : Str)
    (now : Nat) : StoreState :=
  let newEntry : LogRecord := ⟨activity, now, []⟩
  let updatedLogs := st.memory ++ [newEntry]
  { memory := updatedLogs
    persisted := saveLogsToStorage writeOk st.persisted updatedLogs }

/-- Mutation at index `length - 1`, as `addComment` performs it via
`updatedLogs[lastIndex]`. -/
def updateLast (f : LogRecord → LogRecord) : List LogRecord → List LogRecord
  | [] => []
  | [r] => [f r]
  | r :: rest => r :: updateLast f rest

/-- `addComment` (App.js:243-256): on an empty collection it alerts
("Please log an activity first.") and returns without touching anything —
modelled by the `Bool` component being `true` (error surfaced) with the
state returned unchanged.  Otherwise it pushes the comment text onto the
last record's `comments` (the `|| []` re-initialisation cannot fire in
the typed model) and saves. -/
def addComment (writeOk : Bool) (st : StoreState) (commentText : Str) :
    StoreState × Bool :=
  if st.memory.length = 0 then (st, true)
  else
    let updatedLogs :=
      updateLast (fun r => { r with comments := r.comments ++ [commentText] })
        st.memory
    ({ memory := updatedLogs
       persisted := saveLogsToStorage writeOk st.persisted updatedLogs },
     false)

/-- The list the logs screen feeds to its `FlatList`
(App.js:882 `[...logs].reverse()`): most recent first. -/
def displayedLogs (logs : List LogRecord) : List LogRecord := logs.reverse

/-- The index translation in `openEditModal` (App.js:830):
`const originalIndex = logs.length - 1 - displayedIndex`. -/
def originalIndexOf (length displayedIndex : Nat) : Nat :=
  length - 1 - displayedIndex

/-- The comment-splitting step of `saveEditedLog` (App.js:847-850):
`editedComments.split(",").map(c => c.trim()).filter(c => c)` — split on
commas, trim each piece, drop pieces that are empty (falsy). -/
def splitAndCleanComments (raw : Str) : List Str :=
  ((jsSplitComma raw).map jsTrim).filter (fun c => !c.isEmpty)

/-- The per-record update of `saveEditedLog` (App.js:845-850): the
activity is assigned as typed (no trimming), the comments are fully
replaced by the cleaned split. -/
def editEntry (r : LogRecord) (editedActivity editedComments : Str) :
    LogRecord :=
  { r with activity := editedActivity
           comments := splitAndCleanComments editedComments }

/-- `saveEditedLog` (App.js:838-856): copies the array and overwrites the
record at `currentEditingIndex`.  The guard `currentEditingIndex === null`
and the fact that `openEditModal` only produces in-range indices are
modelled by leaving the list unchanged out of range. -/
def saveEditedLog (logs : List LogRecord) (currentEditingIndex : Nat)
    (editedActivity editedComments : Str) : List LogRecord :=
  match logs.get? currentEditingIndex with
  | some r =>
    logs.set currentEditingIndex (editEntry r editedActivity editedComments)
  | none => logs

/-- The full `saveEditedLog` flow including its persistence step
(App.js:852-854): after rewriting the record it runs
`await saveLogsToStorage(updatedLogs)` and then `setLogs(updatedLogs)`
unconditionally — the same swallowed-write pattern as `recordActivity`,
with no error surfaced to the caller. -/
def saveEditedLogStore (writeOk : Bool) (st : StoreState) (i : Nat)
    (editedActivity editedComments : Str) : StoreState :=
  let updatedLogs := saveEditedLog st.memory i editedActivity editedComments
  { memory := updatedLogs
    persisted := saveLogsToStorage writeOk st.persisted updatedLogs }

/-- Observable outcome of an `exportLogsFunction` run: the persisted
value under `LOGS_KEY` afterwards, whether `clearLogsCallback` was
invoked, and whether the "Export Error" alert fired. -/
structure ExportOutcome where
  persisted : Option (List LogRecord)
  cleared : Bool
  errored : Bool
deriving DecidableEq, Repr

/-- `exportLogsFunction`, first variant (App.js:183-211): delivery to the
platform sink (`download` / `FileSystem.writeAsStringAsync` + `Share`),
then `AsyncStorage.removeItem(LOGS_KEY)` and `clearLogsCallback()`; any
throw from the sink lands in the `catch`, which alerts and changes
nothing.  `sinkOk` is the fate of the delivery. -/
def exportLogsV1 (sinkOk : Bool) (persisted : Option (List LogRecord)) :
    ExportOutcome :=
  if sinkOk then ⟨none, true, false⟩
  else ⟨persisted, false, true⟩

/-- `Platform.OS` as the second export variant distinguishes it. -/
inductive ExportPlatform where
  | web
  | android
  | ios
deriving DecidableEq, Repr

/-- `exportLogsFunction`, second variant (App.js:628-692): on web the
download is followed by an immediate `removeItem` + clear; on android/iOS
the share sheet is followed by a "Delete Logs — Click yes if you have
exported the logs" confirmation, and the store is cleared only on "Yes"
(`confirmYes`).  A sink throw reaches the `catch`: alert, no clearing. -/
def exportLogsV2 (platform : ExportPlatform) (sinkOk confirmYes : Bool)
    (persisted : Option (List LogRecord)) : ExportOutcome :=
  match platform with
  | .web =>
    if sinkOk then ⟨none, true, false⟩ else ⟨persisted, false, true⟩
  | _ =>
    if sinkOk then
      if confirmYes then ⟨none, true, false⟩ else ⟨persisted, false, false⟩
    else ⟨persisted, false, true⟩

/-- Replay of a sequence of `recordActivity` calls (label, instant)
starting from an empty store, with the persistence layer healthy. -/
def runRecordCalls (calls : List (Str × Nat)) : StoreState :=
  calls.foldl (fun st c => recordActivity true st c.1 c.2) ⟨[], none⟩

/-!
Configuration handling.  `SettingsScreen` serializes the active config
with `yaml.dump(config)` and parses the edited text with
`yaml.load(yamlText)` (App.js:358, App.js:363); `App.loadConfig` parses
the persisted text at startup (App.js:449-459).  `js-yaml` is an external
dependency, not part of this repository's sources.  Modelled from the
spec: the "structured, user-editable text document (human-readable
key/value + list syntax) round-tripping to `{ activities: [text, ...] }`"
is modelled as a single top-level key followed by a block sequence of
quoted scalar items, and `serialize`/`load` are written as a canonical
dump/parse pair for that subset whose round-trip contract matches the
library's. -/

/-- A parsed configuration document: one top-level key mapped to a list
of string items (the shape `{ activities: [...] }` the app uses). -/
structure YamlDoc where
  key : Str
  items : List Str
deriving DecidableEq, Repr

/-- Escaping of one character inside a double-quoted YAML scalar. -/
def escapeChar (c : Char) : List Char :=
  if c = '\\' then ['\\', '\\']
  else if c = '"' then ['\\', '"']
  else if c = '\n' then ['\\', 'n']
  else [c]

/-- Escaping of a whole scalar. -/
def escapeStr (s : Str) : Str := (s.map escapeChar).flatten

/-- One dumped sequence item, `  - "<escaped label>"` plus newline. -/
def dumpItem (label : Str) : Str :=
  ' ' :: ' ' :: '-' :: ' ' :: '"' :: (escapeStr label ++ '"' :: '\n' :: [])

/-- The serialized form of a configuration document (`yaml.dump`). -/
def yamlDump (d : YamlDoc) : Str :=
  d.key ++ ':' :: '\n' :: (d.items.map dumpItem).flatten

/-- Decoding of the character following a backslash in a double-quoted
scalar. -/
def decodeEsc (d : Char) : Option Char :=
  if d = '\\' then some '\\'
  else if d = '"' then some '"'
  else if d = 'n' then some '\n'
  else none

/-- Scanner for the body of a double-quoted scalar; the flag records that
the previous character was an unconsumed backslash. -/
def parseQuotedAux : Bool → Str → Option (Str × Str)
  | _, [] => none
  | true, d :: rest =>
    match decodeEsc d with
    | none => none
    | some e => (parseQuotedAux false rest).map (fun p => (e :: p.1, p.2))
  | false, c :: rest =>
    if c = '"' then some ([], rest)
    else if c = '\n' then none
    else if c = '\\' then parseQuotedAux true rest
    else (parseQuotedAux false rest).map (fun p => (c :: p.1, p.2))

/-- Parses the body of a double-quoted scalar up to its closing quote,
returning the unescaped content and the remaining input. -/
def parseQuotedBody (s : Str) : Option (Str × Str) :=
  parseQuotedAux false s

/-- Parses the dumped item lines until the input is exhausted.  The fuel
argument only bounds the number of items; the caller passes more fuel
than the input length, which one item at least seven characters long can
never exhaust first. -/
def parseItems : Nat → Str → Option (List Str)
  | 0, _ => none
  | _ + 1, [] => some []
  | fuel + 1, c1 :: c2 :: c3 :: c4 :: c5 :: rest =>
    if c1 = ' ' ∧ c2 = ' ' ∧ c3 = '-' ∧ c4 = ' ' ∧ c5 = '"' then
      match parseQuotedBody rest with
      | none => none
      | some (item, r) =>
        match r with
        | '\n' :: r2 => (parseItems fuel r2).map (fun items => item :: items)
        | _ => none
    else none
  | _ + 1, _ => none

/-- Parses the top-level key up to its colon. -/
def parseKey : Str → Option (Str × Str)
  | [] => none
  | c :: rest =>
    if c = ':' then some ([], rest)
    else if c = '\n' then none
    else (parseKey rest).map (fun p => (c :: p.1, p.2))

/-- The parse of a configuration text (`yaml.load`): a key line followed
by its sequence items; anything else fails. -/
def yamlLoad (s : Str) : Option YamlDoc :=
  match parseKey s with
  | none => none
  | some (k, r) =>
    if k.isEmpty then none
    else
      match r with
      | c :: r2 =>
        if c = '\n' then
          match parseItems (r2.length + 1) r2 with
          | none => none
          | some items => some ⟨k, items⟩
        else none
      | [] => none

/-- `DEFAULT_CONFIG` (App.js:30): `{ activities: ['Work', 'Break',
'Exercise'] }`. -/
def DEFAULT_CONFIG : YamlDoc :=
  ⟨"activities".data, ["Work".data, "Break".data, "Exercise".data]⟩

/-- The configuration-relevant React state of the app: the active config
and the AsyncStorage value under `CONFIG_KEY`. -/
structure SettingsState where
  config : YamlDoc
  storedConfig : Option Str
deriving DecidableEq, Repr

/-- `App.loadConfig` (App.js:449-459): `config` starts as
`DEFAULT_CONFIG`; a stored text is parsed only when truthy (the empty
string is falsy), and a parse throw is caught with `console.error`,
leaving the default in place. -/
def loadConfigStartup (storedConfig : Option Str) : YamlDoc :=
  match storedConfig with
  | none => DEFAULT_CONFIG
  | some s =>
    if s.isEmpty then DEFAULT_CONFIG
    else
      match yamlLoad s with
      | some c => c
      | none => DEFAULT_CONFIG

/-- `SettingsScreen.saveSettings` (App.js:361-373): parses the edited
text; on a throw the `catch` alerts "Invalid YAML configuration." and
nothing changes (the `Bool` component is `true`); otherwise the parse
result becomes the active config — with no check that it carries an
activities list — and the raw text is persisted. -/
def saveSettings (st : SettingsState) (yamlText : Str) :
    SettingsState × Bool :=
  match yamlLoad yamlText with
  | none => (st, true)
  | some newConfig => (⟨newConfig, some yamlText⟩, false)

/-! Theorems. -/

/-- C2.  For every non-empty collection and displayed index `d < n`, the
edit flow translates the displayed (newest-first) position to the stored
position `n - 1 - d`: the translated index is in bounds, the record shown
at displayed position `d` is exactly the record stored at the translated
index, and displayed position `0` is always the most-recently-created
record. -/
theorem spec_C2_display_index_inversion (logs : List LogRecord) (d : Nat)
    (hd : d < logs.length) :
    originalIndexOf logs.length d < logs.length ∧
    (displayedLogs logs).get? d = logs.get? (originalIndexOf logs.length d) ∧
    (displayedLogs logs).get? 0 = logs.getLast? := by
  refine ⟨by rw [originalIndexOf]; omega, ?_, ?_⟩
  · simpa [displayedLogs, originalIndexOf] using List.get?_reverse hd
  · rw [displayedLogs, List.get?_zero, List.head?_reverse]

/-- Witness for C2 at a concrete two-record collection: displayed index 0
resolves to the most recent record. -/
theorem spec_C2_witness :
    (0 < ([⟨"Work".data, 0, []⟩, ⟨"Break".data, 1, []⟩] :
        List LogRecord).length) ∧
    (displayedLogs [⟨"Work".data, 0, []⟩, ⟨"Break".data, 1, []⟩]).get? 0 =
      some ⟨"Break".data, 1, []⟩ := by
  refine ⟨by decide, ?_⟩
  have h := spec_C2_display_index_inversion
    [⟨"Work".data, 0, []⟩, ⟨"Break".data, 1, []⟩] 0 (by decide)
  rw [h.2.2]
  decide

/-- C3.  On an empty collection, `addComment` fails (the "log an activity
first" alert is the surfaced error) and returns with both the in-memory
and the persisted collection unchanged, for every comment text and every
fate of the persistence layer. -/
theorem spec_C3_add_comment_empty (writeOk : Bool)
    (persisted : Option (List LogRecord)) (text : Str) :
    addComment writeOk ⟨[], persisted⟩ text = (⟨[], persisted⟩, true) := by
  simp [addComment]

/-- C4 counterexample.  The claim says the edited activity is stored
trimmed of surrounding whitespace; `saveEditedLog` assigns
`editedActivity` verbatim, so editing with activity text `" Gym "` stores
`" Gym "`, not the trimmed `"Gym"`. -/
theorem spec_C4_counterexample :
    saveEditedLog [⟨"Work".data, 0, []⟩] 0 (" Gym ".data)
        ("warmup, cardio, stretch".data) =
      [⟨" Gym ".data, 0, ["warmup".data, "cardio".data, "stretch".data]⟩] ∧
    jsTrim (" Gym ".data) = "Gym".data ∧
    (" Gym ".data : Str) ≠ "Gym".data := by
  decide

/-- C4 amended.  The full-record edit replaces the record's activity with
the new activity text exactly as supplied (no trimming), and replaces its
comment list with the raw comments text split on commas, each piece
trimmed and empty pieces discarded (a full replacement); the length of
the collection and every other record are unchanged. -/
theorem spec_C4_edit_record (logs : List LogRecord) (i : Nat) (a c : Str)
    (r : LogRecord) (h : logs.get? i = some r) :
    (saveEditedLog logs i a c).get? i = some (editEntry r a c) ∧
    (editEntry r a c).activity = a ∧
    (editEntry r a c).timestamp = r.timestamp ∧
    (editEntry r a c).comments =
      ((jsSplitComma c).map jsTrim).filter (fun x => !x.isEmpty) ∧
    (saveEditedLog logs i a c).length = logs.length ∧
    ∀ j, j ≠ i → (saveEditedLog logs i a c).get? j = logs.get? j := by
  have hi : i < logs.length := by
    by_contra hge
    rw [List.get?_eq_none.2 (Nat.le_of_not_lt hge)] at h
    exact Option.noConfusion h
  refine ⟨?_, rfl, rfl, rfl, ?_, ?_⟩
  · rw [saveEditedLog, h]
    exact List.get?_set_eq_of_lt _ hi
  · rw [saveEditedLog, h, List.length_set]
  · intro j hj
    rw [saveEditedLog, h]
    exact List.get?_set_ne _ _ (Ne.symm hj)

/-- Witness for C4 amended at the spec's concrete scenario shape: editing
the last record of a collection. -/
theorem spec_C4_witness :
    ([⟨"Work".data, 0, []⟩] : List LogRecord).get? 0 =
      some ⟨"Work".data, 0, []⟩ ∧
    (saveEditedLog [⟨"Work".data, 0, []⟩] 0 ("Gym".data)
        ("warmup, cardio, stretch".data)).get? 0 =
      some (editEntry ⟨"Work".data, 0, []⟩ ("Gym".data)
        ("warmup, cardio, stretch".data)) :=
  ⟨by decide,
   (spec_C4_edit_record [⟨"Work".data, 0, []⟩] 0 ("Gym".data)
      ("warmup, cardio, stretch".data) ⟨"Work".data, 0, []⟩ (by decide)).1⟩

/-- C5 counterexample.  The claim says creating a record whose activity
is empty after trimming fails with `InvalidActivity`; `recordActivity`
performs no validation, so an all-whitespace activity is accepted and a
record carrying it is appended and persisted. -/
theorem spec_C5_counterexample :
    recordActivity true ⟨[], none⟩ (" ".data) 5 =
      ⟨[⟨" ".data, 5, []⟩], some [⟨" ".data, 5, []⟩]⟩ ∧
    jsTrim (" ".data) = [] := by
  decide

/-- C5 amended.  `recordActivity` never validates the activity label: for
every label (including one empty after trimming) it appends a record with
exactly that label, the supplied creation instant, and an empty comments
list, and persists the appended collection when the write succeeds. -/
theorem spec_C5_create_record (writeOk : Bool) (st : StoreState) (a : Str)
    (now : Nat) :
    (recordActivity writeOk st a now).memory =
      st.memory ++ [⟨a, now, []⟩] ∧
    (recordActivity true st a now).persisted =
      some (st.memory ++ [⟨a, now, []⟩]) ∧
    (⟨a, now, []⟩ : LogRecord).comments = [] := by
  refine ⟨rfl, ?_, rfl⟩
  simp [recordActivity, saveLogsToStorage]

/-- C6.  The store load returns the empty collection when no persisted
value is present; on a present value the result is all-or-nothing: either
the parse succeeds and the full parsed collection is returned, or the
parse fails (the `CorruptStore` case, caught internally) and the empty
collection is returned — never a partial load. -/
theorem spec_C6_load_never_partial
    (parse : Str → Option (List LogRecord)) :
    loadLogsFromStorage parse none = [] ∧
    ∀ s : Str,
      (∃ logs, parse s = some logs ∧
        loadLogsFromStorage parse (some s) = logs) ∨
      (parse s = none ∧ loadLogsFromStorage parse (some s) = []) := by
  refine ⟨rfl, ?_⟩
  intro s
  cases h : parse s with
  | none => exact Or.inr ⟨rfl, by simp [loadLogsFromStorage, h]⟩
  | some logs => exact Or.inl ⟨logs, rfl, by simp [loadLogsFromStorage, h]⟩

/-- C7 counterexample.  The claim says a failed persistence write is
surfaced as an error and the mutation's effect is not applied; with the
write failing, `recordActivity` still installs the appended collection in
memory and surfaces nothing, `addComment` on a non-empty collection
reports no error either, and the edit flow likewise installs the edited
record in memory while the persisted value keeps the unedited one. -/
theorem spec_C7_counterexample :
    (recordActivity false ⟨[], some []⟩ ("Work".data) 0).memory =
      [⟨"Work".data, 0, []⟩] ∧
    (recordActivity false ⟨[], some []⟩ ("Work".data) 0).persisted =
      some [] ∧
    (addComment false
      ⟨[⟨"Work".data, 0, []⟩], some [⟨"Work".data, 0, []⟩]⟩
      ("hi".data)).2 = false ∧
    (saveEditedLogStore false
      ⟨[⟨"Work".data, 0, []⟩], some [⟨"Work".data, 0, []⟩]⟩
      0 ("Gym".data) ("stretch".data)).memory =
      [⟨"Gym".data, 0, ["stretch".data]⟩] ∧
    (saveEditedLogStore false
      ⟨[⟨"Work".data, 0, []⟩], some [⟨"Work".data, 0, []⟩]⟩
      0 ("Gym".data) ("stretch".data)).persisted =
      some [⟨"Work".data, 0, []⟩] := by
  decide

/-- C7 amended.  For each of the three mutation operations — record
activity, add comment, edit — a failed persistence write is swallowed
(console log only): the persisted value keeps its previous state, yet the
in-memory collection is updated with the attempted mutation and no error
reaches the caller — `addComment` reports an error exactly when the
collection is empty, never because the write failed, and the other two
operations have no error channel at all. -/
theorem spec_C7_write_failure_swallowed (st : StoreState) (a text c : Str)
    (now : Nat) (i : Nat) :
    (recordActivity false st a now).persisted = st.persisted ∧
    (recordActivity false st a now).memory =
      st.memory ++ [⟨a, now, []⟩] ∧
    ((addComment false st text).1).persisted = st.persisted ∧
    (addComment false st text).2 = st.memory.isEmpty ∧
    (saveEditedLogStore false st i a c).persisted = st.persisted ∧
    (saveEditedLogStore false st i a c).memory =
      saveEditedLog st.memory i a c := by
  refine ⟨rfl, rfl, ?_, ?_, rfl, rfl⟩
  · rw [addComment]
    split <;> simp [saveLogsToStorage]
  · rw [addComment]
    split <;> simp_all [List.isEmpty_iff_length_eq_zero]

/-- C1 counterexample.  The claim says a successful export always clears
the log store; in the confirmation variant (App.js:628-692) a successful
mobile share followed by the user answering "No" to "Delete Logs" leaves
the persisted collection exactly as it was, with no error raised. -/
theorem spec_C1_counterexample :
    (exportLogsV2 .android true false (some [⟨"Work".data, 0, []⟩])).errored
      = false ∧
    (exportLogsV2 .android true false (some [⟨"Work".data, 0, []⟩])).persisted
      = some [⟨"Work".data, 0, []⟩] ∧
    (exportLogsV2 .android true false (some [⟨"Work".data, 0, []⟩])).cleared
      = false := by
  decide

/-- C1 amended.  For every collection: when the sink delivery fails, no
export variant clears — the persisted value is exactly its pre-export
value, the clear callback is not invoked (so the in-memory collection is
also untouched) and the error is surfaced.  On successful delivery, the
immediate-clear variant and the web path of the confirmation variant
remove the persisted log (a subsequent snapshot loads empty); the mobile
paths of the confirmation variant clear only when the user confirms, and
otherwise leave the store untouched without raising an error. -/
theorem spec_C1_export_clear (p : Option (List LogRecord)) (c : Bool)
    (parse : Str → Option (List LogRecord)) :
    exportLogsV1 false p = ⟨p, false, true⟩ ∧
    exportLogsV2 .web false c p = ⟨p, false, true⟩ ∧
    exportLogsV2 .android false c p = ⟨p, false, true⟩ ∧
    exportLogsV2 .ios false c p = ⟨p, false, true⟩ ∧
    exportLogsV1 true p = ⟨none, true, false⟩ ∧
    exportLogsV2 .web true c p = ⟨none, true, false⟩ ∧
    exportLogsV2 .android true true p = ⟨none, true, false⟩ ∧
    exportLogsV2 .ios true true p = ⟨none, true, false⟩ ∧
    exportLogsV2 .android true false p = ⟨p, false, false⟩ ∧
    exportLogsV2 .ios true false p = ⟨p, false, false⟩ ∧
    loadLogsFromStorage parse none = [] := by
  exact ⟨rfl, rfl, rfl, rfl, rfl, rfl, rfl, rfl, rfl, rfl, rfl⟩

/-- The in-memory collection after a replay of `recordActivity` calls is
the initial collection followed by one fresh record per call, in call
order. -/
theorem runRecordCalls_memory_general (calls : List (Str × Nat))
    (st : StoreState) :
    (calls.foldl (fun s c => recordActivity true s c.1 c.2) st).memory =
      st.memory ++ calls.map (fun c => ⟨c.1, c.2, []⟩) := by
  induction calls generalizing st with
  | nil => simp
  | cons c rest ih =>
    rw [List.foldl_cons, ih]
    simp [recordActivity]

/-- `updateLast` keeps every record's activity and timestamp when the
update function does. -/
theorem updateLast_map_projection (f : LogRecord → LogRecord)
    (hf : ∀ r, (f r).activity = r.activity ∧ (f r).timestamp = r.timestamp)
    (l : List LogRecord) :
    (updateLast f l).map (fun r => (r.activity, r.timestamp)) =
      l.map (fun r => (r.activity, r.timestamp)) := by
  induction l with
  | nil => rfl
  | cons r rest ih =>
    cases rest with
    | nil => simp [updateLast, (hf r).1, (hf r).2]
    | cons s t =>
      have hstep : updateLast f (r :: s :: t) = r :: updateLast f (s :: t) :=
        rfl
      rw [hstep]
      simpa using ih

/-- `saveEditedLog` keeps every record's timestamp: the edit rewrites a
record in place, never moving or re-stamping records. -/
theorem saveEditedLog_map_timestamp (logs : List LogRecord) (i : Nat)
    (a c : Str) :
    (saveEditedLog logs i a c).map LogRecord.timestamp =
      logs.map LogRecord.timestamp := by
  induction logs generalizing i with
  | nil => rfl
  | cons r rest ih =>
    cases i with
    | zero => simp [saveEditedLog, editEntry]
    | succ i =>
      have hstep : saveEditedLog (r :: rest) (i + 1) a c =
          r :: saveEditedLog rest i a c := by
        rw [saveEditedLog, saveEditedLog]
        cases h : rest.get? i <;>
          rw [List.get?_eq_getElem?] at h <;> simp [h]
      rw [hstep, List.map_cons, List.map_cons, ih i]

/-- C10.  Starting from an empty store, a sequence of `recordActivity`
calls yields a snapshot whose length is the number of calls, whose
records appear in call order carrying the instant supplied at creation,
and whose timestamps are non-decreasing whenever the clock was; moreover
neither `addComment` nor the in-place edit reorders existing records
(both keep the positionwise activity/timestamp structure). -/
theorem spec_C10_append_only (calls : List (Str × Nat)) :
    (runRecordCalls calls).memory =
      calls.map (fun c => ⟨c.1, c.2, []⟩) ∧
    (runRecordCalls calls).memory.length = calls.length ∧
    (List.Pairwise (fun x y => x ≤ y) (calls.map Prod.snd) →
      List.Pairwise (fun x y => x ≤ y)
        ((runRecordCalls calls).memory.map LogRecord.timestamp)) ∧
    (∀ (w : Bool) (st : StoreState) (t : Str),
      ((addComment w st t).1.memory.map
          (fun r => (r.activity, r.timestamp))) =
        st.memory.map (fun r => (r.activity, r.timestamp))) ∧
    (∀ (logs : List LogRecord) (i : Nat) (a c : Str),
      (saveEditedLog logs i a c).map LogRecord.timestamp =
        logs.map LogRecord.timestamp) := by
  have hmem : (runRecordCalls calls).memory =
      calls.map (fun c => ⟨c.1, c.2, []⟩) := by
    simpa using runRecordCalls_memory_general calls ⟨[], none⟩
  refine ⟨hmem, by rw [hmem, List.length_map], ?_, ?_, ?_⟩
  · intro hsorted
    rw [hmem, List.map_map]
    exact hsorted
  · intro w st t
    rw [addComment]
    split
    · rfl
    · exact updateLast_map_projection
        (fun r => { r with comments := r.comments ++ [t] })
        (fun r => ⟨rfl, rfl⟩) st.memory
  · exact saveEditedLog_map_timestamp

/-- Evaluation of the scalar escaper on a backslash. -/
theorem escapeChar_backslash : escapeChar '\\' = ['\\', '\\'] := rfl

/-- Evaluation of the scalar escaper on a double quote. -/
theorem escapeChar_quote : escapeChar '"' = ['\\', '"'] := rfl

/-- Evaluation of the scalar escaper on a newline. -/
theorem escapeChar_newline : escapeChar '\n' = ['\\', 'n'] := rfl

/-- Every other character is passed through unescaped. -/
theorem escapeChar_other (c : Char) (h1 : ¬ c = '\\') (h2 : ¬ c = '"')
    (h3 : ¬ c = '\n') : escapeChar c = [c] := by
  simp [escapeChar, h1, h2, h3]

/-- Unfolding of the quoted-scalar parser at a closing quote. -/
theorem parseQuotedBody_close (rest : Str) :
    parseQuotedBody ('"' :: rest) = some ([], rest) := rfl

/-- Unfolding of the quoted-scalar parser at an escaped backslash. -/
theorem parseQuotedBody_esc_backslash (rest : Str) :
    parseQuotedBody ('\\' :: '\\' :: rest) =
      (parseQuotedBody rest).map (fun p => ('\\' :: p.1, p.2)) := rfl

/-- Unfolding of the quoted-scalar parser at an escaped quote. -/
theorem parseQuotedBody_esc_quote (rest : Str) :
    parseQuotedBody ('\\' :: '"' :: rest) =
      (parseQuotedBody rest).map (fun p => ('"' :: p.1, p.2)) := rfl

/-- Unfolding of the quoted-scalar parser at an escaped newline. -/
theorem parseQuotedBody_esc_newline (rest : Str) :
    parseQuotedBody ('\\' :: 'n' :: rest) =
      (parseQuotedBody rest).map (fun p => ('\n' :: p.1, p.2)) := rfl

/-- Unfolding of the quoted-scalar parser at an ordinary character. -/
theorem parseQuotedBody_other (c : Char) (rest : Str) (h1 : ¬ c = '"')
    (h2 : ¬ c = '\\') (h3 : ¬ c = '\n') :
    parseQuotedBody (c :: rest) =
      (parseQuotedBody rest).map (fun p => (c :: p.1, p.2)) := by
  simp [parseQuotedBody, parseQuotedAux, h1, h2, h3]

/-- The quoted-scalar parser inverts the escaper: the escaped text
followed by the closing quote parses back to the original scalar. -/
theorem parseQuotedBody_escape (s rest : Str) :
    parseQuotedBody (escapeStr s ++ '"' :: rest) = some (s, rest) := by
  induction s with
  | nil => simp [escapeStr, parseQuotedBody_close]
  | cons c cs ih =>
    have hesc : escapeStr (c :: cs) ++ '"' :: rest =
        escapeChar c ++ (escapeStr cs ++ '"' :: rest) := by
      simp [escapeStr]
    rw [hesc]
    by_cases h1 : c = '\\'
    · subst h1
      rw [escapeChar_backslash]
      simp [parseQuotedBody_esc_backslash, ih]
    · by_cases h2 : c = '"'
      · subst h2
        rw [escapeChar_quote]
        simp [parseQuotedBody_esc_quote, ih]
      · by_cases h3 : c = '\n'
        · subst h3
          rw [escapeChar_newline]
          simp [parseQuotedBody_esc_newline, ih]
        · rw [escapeChar_other c h1 h2 h3]
          simp [parseQuotedBody_other c _ h2 h1 h3, ih]

/-- The dump of a sequence is at least one character per item long. -/
theorem length_le_flatten_dumpItem (items : List Str) :
    items.length ≤ ((items.map dumpItem).flatten).length := by
  induction items with
  | nil => simp
  | cons a rest ih =>
    simp only [List.map_cons, List.flatten_cons, List.length_append,
      List.length_cons, dumpItem]
    simp at ih ⊢
    omega

/-- The item parser inverts the item dumper, for any fuel exceeding the
number of items. -/
theorem parseItems_dump (items : List Str) (fuel : Nat)
    (hfuel : items.length < fuel) :
    parseItems fuel ((items.map dumpItem).flatten) = some items := by
  induction items generalizing fuel with
  | nil =>
    cases fuel with
    | zero => omega
    | succ f => simp [parseItems]
  | cons a rest ih =>
    cases fuel with
    | zero => omega
    | succ f =>
      have hshape : (((a :: rest).map dumpItem).flatten) =
          ' ' :: ' ' :: '-' :: ' ' :: '"' ::
            (escapeStr a ++ '"' :: '\n' :: ((rest.map dumpItem).flatten)) := by
        simp [dumpItem]
      rw [hshape, parseItems, if_pos (by decide),
        parseQuotedBody_escape a ('\n' :: ((rest.map dumpItem).flatten))]
      have hrest := ih f (by simpa using Nat.lt_of_succ_lt_succ hfuel)
      simp [hrest]

/-- The key parser inverts key serialization for keys free of colons and
newlines. -/
theorem parseKey_append (k rest : Str)
    (hk : ∀ c ∈ k, ¬ c = ':' ∧ ¬ c = '\n') :
    parseKey (k ++ ':' :: rest) = some (k, rest) := by
  induction k with
  | nil => rfl
  | cons c cs ih =>
    have hc := hk c (by simp)
    rw [List.cons_append, parseKey]
    simp [hc.1, hc.2, ih (fun d hd => hk d (by simp [hd]))]

/-- C8.  For every configuration with a non-empty activities list of
unique labels, parsing the serialized form yields the original
configuration: `yamlLoad (yamlDump config) = config`. -/
theorem spec_C8_config_round_trip (labels : List Str) (hne : labels ≠ [])
    (hnodup : labels.Nodup) :
    yamlLoad (yamlDump ⟨"activities".data, labels⟩) =
      some ⟨"activities".data, labels⟩ := by
  have hkey : ∀ c ∈ ("activities".data : Str), ¬ c = ':' ∧ ¬ c = '\n' := by
    decide
  have hdump : yamlDump ⟨"activities".data, labels⟩ =
      "activities".data ++ ':' :: '\n' :: ((labels.map dumpItem).flatten) :=
    rfl
  have hpk : parseKey ("activities".data ++
        ':' :: '\n' :: ((labels.map dumpItem).flatten)) =
      some ("activities".data, '\n' :: ((labels.map dumpItem).flatten)) :=
    parseKey_append _ _ hkey
  have hpi : parseItems (((labels.map dumpItem).flatten).length + 1)
        ((labels.map dumpItem).flatten) = some labels :=
    parseItems_dump labels _
      (Nat.lt_succ_of_le (length_le_flatten_dumpItem labels))
  rw [hdump, yamlLoad, hpk]
  set L := (labels.map dumpItem).flatten with hL
  simp [hpi]

/-- Witness for C8 at the built-in default configuration. -/
theorem spec_C8_witness :
    (["Work".data, "Break".data, "Exercise".data] : List Str) ≠ [] ∧
    (["Work".data, "Break".data, "Exercise".data] : List Str).Nodup ∧
    yamlLoad (yamlDump ⟨"activities".data,
        ["Work".data, "Break".data, "Exercise".data]⟩) =
      some ⟨"activities".data,
        ["Work".data, "Break".data, "Exercise".data]⟩ :=
  ⟨by decide, by decide,
   spec_C8_config_round_trip ["Work".data, "Break".data, "Exercise".data]
     (by decide) (by decide)⟩

/-- C9 counterexample.  The claim says a parse result lacking a usable
activities list is rejected with `InvalidConfig` and the previous
configuration retained; `saveSettings` performs no such check: a
well-formed document with only a `hobbies` list is adopted as the active
configuration and persisted, with no error raised. -/
theorem spec_C9_counterexample :
    saveSettings ⟨DEFAULT_CONFIG, none⟩ ("hobbies:\n  - \"x\"\n".data) =
      (⟨⟨"hobbies".data, ["x".data]⟩,
        some ("hobbies:\n  - \"x\"\n".data)⟩, false) ∧
    (⟨"hobbies".data, ["x".data]⟩ : YamlDoc).key ≠ "activities".data ∧
    (⟨"hobbies".data, ["x".data]⟩ : YamlDoc) ≠ DEFAULT_CONFIG := by
  decide

/-- C9 amended.  With no persisted text the built-in default
`{ activities: [Work, Break, Exercise] }` is active; a text that fails to
parse on save is rejected with the error alert and the previously active
configuration and stored text retained; a persisted text that fails to
parse at startup silently leaves the default active; and any
successfully parsed document — with or without an activities list — is
adopted and its text persisted. -/
theorem spec_C9_config_load (st : SettingsState) (t : Str) :
    loadConfigStartup none = DEFAULT_CONFIG ∧
    DEFAULT_CONFIG =
      ⟨"activities".data, ["Work".data, "Break".data, "Exercise".data]⟩ ∧
    (yamlLoad t = none → saveSettings st t = (st, true)) ∧
    (∀ d, yamlLoad t = some d →
      saveSettings st t = (⟨d, some t⟩, false)) ∧
    (∀ s : Str, s.isEmpty = false → yamlLoad s = none →
      loadConfigStartup (some s) = DEFAULT_CONFIG) := by
  refine ⟨rfl, rfl, ?_, ?_, ?_⟩
  · intro h
    simp [saveSettings, h]
  · intro d h
    simp [saveSettings, h]
  · intro s hse h
    simp [loadConfigStartup, hse, h]

/-- Witness for C9 at a concrete unparsable text: the save is rejected
and the state retained. -/
theorem spec_C9_witness :
    yamlLoad ("x".data) = none ∧
    saveSettings ⟨DEFAULT_CONFIG, none⟩ ("x".data) =
      (⟨DEFAULT_CONFIG, none⟩, true) :=
  ⟨by decide,
   (spec_C9_config_load ⟨DEFAULT_CONFIG, none⟩ ("x".data)).2.2.1
     (by decide)⟩

/-- Witness for C10 at a concrete two-call sequence with a non-decreasing
clock. -/
theorem spec_C10_witness :
    List.Pairwise (fun x y => x ≤ y)
      (([("Work".data, 3), ("Break".data, 7)] : List (Str × Nat)).map
        Prod.snd) ∧
    List.Pairwise (fun x y => x ≤ y)
      ((runRecordCalls [("Work".data, 3), ("Break".data, 7)]).memory.map
        LogRecord.timestamp) :=
  ⟨by decide,
   (spec_C10_append_only [("Work".data, 3), ("Break".data, 7)]).2.2.1
     (by decide)⟩

end TimeTracker
